import Mathlib

/-!
Verification of the superposition context-aware-configuration and
experimentation platform.

Shallow embedding of the Rust sources:
  - crates/superposition_client/src/lib.rs  (decide_variant, run_polling_updates)
  - crates/experimentation_platform/src/api/experiments/helpers.rs
    (are_overlapping_contexts, is_valid_experiment, validate_override_keys)
  - crates/context_aware_config/src/api/default_config/handlers.rs
    (create, delete, get_key_usage_context_ids)

Machine integers (u8) are modelled as Nat with explicit wrap-around
(mod 256) at every u8 arithmetic operation, matching release-mode Rust
semantics.  Fallible Rust code returns Except; a Rust panic reachable in
a modelled function is a distinguished constructor.
-/

namespace Superposition

/-- serde_json values, restricted to integer numbers (no floats are
involved in any of the verified code paths). -/
inductive Json where
  | null : Json
  | bool (b : Bool) : Json
  | num (n : Int) : Json
  | str (s : String) : Json
  | arr (elems : List Json) : Json
  | obj (fields : List (String × Json)) : Json

mutual

/-- Structural equality on Json values (serde_json PartialEq). -/
def Json.beq : Json → Json → Bool
  | .null, .null => true
  | .bool a, .bool b => a == b
  | .num a, .num b => a == b
  | .str a, .str b => a == b
  | .arr a, .arr b => Json.beqList a b
  | .obj a, .obj b => Json.beqFields a b
  | _, _ => false

/-- Elementwise equality of Json arrays. -/
def Json.beqList : List Json → List Json → Bool
  | [], [] => true
  | x :: xs, y :: ys => Json.beq x y && Json.beqList xs ys
  | _, _ => false

/-- Elementwise equality of Json object field lists: both the name and
the value of each field must agree. -/
def Json.beqFields : (fs gs : List (String × Json)) → Bool
  | [], [] => true
  | f :: fs, g :: gs =>
      f.1 == g.1 && Json.beq f.2 g.2 && Json.beqFields fs gs
  | _, _ => false

end

instance : BEq Json := ⟨Json.beq⟩

mutual

theorem Json.beq_eq : ∀ a b : Json, Json.beq a b = true → a = b
  | .null, .null, _ => rfl
  | .bool a, .bool b, h => by
      simp only [Json.beq] at h; simp [of_decide_eq_true h]
  | .num a, .num b, h => by
      have : a = b := by simpa [Json.beq] using h
      simp [this]
  | .str a, .str b, h => by
      have : a = b := by simpa [Json.beq] using h
      simp [this]
  | .arr a, .arr b, h => by
      have : a = b := Json.beqList_eq a b (by simpa [Json.beq] using h)
      simp [this]
  | .obj a, .obj b, h => by
      have : a = b := Json.beqFields_eq a b (by simpa [Json.beq] using h)
      simp [this]

theorem Json.beqList_eq : ∀ a b : List Json, Json.beqList a b = true → a = b
  | [], [], _ => rfl
  | x :: xs, y :: ys, h => by
      simp only [Json.beqList, Bool.and_eq_true] at h
      have h1 := Json.beq_eq x y h.1
      have h2 := Json.beqList_eq xs ys h.2
      simp [h1, h2]

theorem Json.beqFields_eq :
    ∀ a b : List (String × Json), Json.beqFields a b = true → a = b
  | [], [], _ => rfl
  | f :: fs, g :: gs, h => by
      simp only [Json.beqFields, Bool.and_eq_true] at h
      have hk : f.1 = g.1 := by simpa using h.1.1
      have hv := Json.beq_eq f.2 g.2 h.1.2
      have ht := Json.beqFields_eq fs gs h.2
      rw [ht, Prod.ext hk hv]

end

mutual

theorem Json.beq_refl : ∀ a : Json, Json.beq a a = true
  | .null => rfl
  | .bool a => by simp [Json.beq]
  | .num a => by simp [Json.beq]
  | .str a => by simp [Json.beq]
  | .arr a => by simpa [Json.beq] using Json.beqList_refl a
  | .obj a => by simpa [Json.beq] using Json.beqFields_refl a

theorem Json.beqList_refl : ∀ a : List Json, Json.beqList a a = true
  | [] => rfl
  | x :: xs => by
      simp only [Json.beqList, Bool.and_eq_true]
      exact ⟨Json.beq_refl x, Json.beqList_refl xs⟩

theorem Json.beqFields_refl :
    ∀ a : List (String × Json), Json.beqFields a a = true
  | [] => rfl
  | f :: fs => by
      simp only [Json.beqFields, Bool.and_eq_true]
      exact ⟨⟨by simp, Json.beq_refl f.2⟩, Json.beqFields_refl fs⟩

end

instance : DecidableEq Json := fun a b =>
  decidable_of_iff (Json.beq a b = true)
    ⟨Json.beq_eq a b, fun h => h ▸ Json.beq_refl a⟩

instance : LawfulBEq Json where
  eq_of_beq h := Json.beq_eq _ _ h
  rfl := Json.beq_refl _

/-- Variant type tags, from experimentation types. -/
inductive VariantType where
  | CONTROL : VariantType
  | EXPERIMENTAL : VariantType
  deriving DecidableEq

/-- An experiment variant: an id, a type tag and an overrides object
(superposition_client types / spec section 3). -/
structure Variant where
  id : String
  variant_type : VariantType
  overrides : Json
  deriving DecidableEq

/-- Result of running a Rust function that can panic: either a returned
value or a panic (e.g. an Option.unwrap on None). -/
inductive RustResult (α : Type) where
  | panic : RustResult α
  | ok (val : α) : RustResult α
  deriving DecidableEq

/-- Rust `Iterator::position`: the index of the first element
satisfying the predicate. -/
def position (p : α → Bool) : List α → Option Nat
  | [] => none
  | x :: xs => if p x then some 0 else (position p xs).map (· + 1)

/-- `Client::decide_variant` from crates/superposition_client/src/lib.rs
(lines 100-116).  `traffic` and `toss` are u8 values; the u8 products
`traffic * variant_count` and `traffic * i` wrap modulo 256, and
`applicable_vars.len() as u8` truncates modulo 256.  The
`index.unwrap()` is modelled by `RustResult.panic` when the bucket
search returns no index.  In the source the buckets are the u8 products
`traffic * i` for `i` in `1..=variant_count`; here `List.range`
produces `0, …, variant_count - 1`, so the mapped function uses
`i + 1`. -/
def decide_variant (traffic : Nat) (applicable_vars : List Variant)
    (toss : Nat) : RustResult (Option Variant) :=
  let variant_count := applicable_vars.length % 256
  let range := traffic * variant_count % 256
  if toss ≥ range then
    .ok none
  else
    let buckets := (List.range variant_count).map (fun i => traffic * (i + 1) % 256)
    match position (fun x => decide (toss < x)) buckets with
    | none => .panic
    | some index => .ok applicable_vars[index]?

theorem position_eq_none_iff (p : α → Bool) (l : List α) :
    position p l = none ↔ ∀ x ∈ l, p x = false := by
  induction l with
  | nil => simp [position]
  | cons a t ih =>
      by_cases h : p a = true
      · simp [position, h]
      · simp only [Bool.not_eq_true] at h
        simp [position, h, ih]

theorem position_map (p : β → Bool) (f : α → β) (l : List α) :
    position p (l.map f) = position (fun a => p (f a)) l := by
  induction l with
  | nil => rfl
  | cons a t ih => simp [position, ih]

theorem position_range_eq_some (q : Nat → Bool) :
    ∀ n i, position q (List.range n) = some i ↔
      i < n ∧ q i = true ∧ ∀ j < i, q j = false := by
  intro n
  induction n generalizing q with
  | zero => intro i; simp [List.range_zero, position]
  | succ n ih =>
      intro i
      rw [List.range_succ_eq_map, position]
      by_cases hq0 : q 0 = true
      · simp only [hq0, if_true]
        constructor
        · rintro ⟨rfl⟩
          exact ⟨Nat.succ_pos n, hq0, by omega⟩
        · rintro ⟨hi, hqi, hmin⟩
          have : i = 0 := by
            by_contra hne
            have h0 : 0 < i := Nat.pos_of_ne_zero hne
            have := hmin 0 h0
            rw [hq0] at this
            exact Bool.true_eq_false.mp this
          simp [this]
      · simp only [Bool.not_eq_true] at hq0
        rw [if_neg (by rw [hq0]; exact Bool.false_ne_true)]
        rw [position_map]
        constructor
        · intro h
          rcases Option.map_eq_some'.mp h with ⟨k, hk, rfl⟩
          have hsucc : ∀ a, q (Nat.succ a) = q (a + 1) := fun a => rfl
          rcases (ih (fun a => q (Nat.succ a)) k).mp hk with ⟨hkn, hqk, hmin⟩
          refine ⟨by omega, hqk, ?_⟩
          intro j hj
          match j with
          | 0 => exact hq0
          | Nat.succ m => exact hmin m (by omega)
        · rintro ⟨hi, hqi, hmin⟩
          match i with
          | 0 => rw [hq0] at hqi; exact absurd hqi (by simp)
          | Nat.succ k =>
              have hk : position (fun a => q (Nat.succ a)) (List.range n) = some k := by
                refine (ih (fun a => q (Nat.succ a)) k).mpr ⟨by omega, hqi, ?_⟩
                intro j hj
                exact hmin (j + 1) (by omega)
              rw [hk]
              rfl

/-- A dimension map: the result of a successful
`service_utils::helpers::extract_dimensions` call on a context
(a `serde_json::Map<String, Value>`: association list with unique
keys).  `extract_dimensions` itself lives outside the embedded sources,
so contexts on which extraction succeeds are represented directly by
their extracted dimension maps. -/
abbrev Dims := List (String × Json)

/-- The key list of a dimension map. -/
def dimsKeys (d : Dims) : List String := d.map Prod.fst

/-- Map lookup (`Map::get` / indexing). -/
def dimsGet (d : Dims) (k : String) : Option Json :=
  (d.find? (fun p => p.1 == k)).map Prod.snd

/-- `Map::contains_key`. -/
def containsKey (d : Dims) (k : String) : Bool := (dimsGet d k).isSome

/-- `are_overlapping_contexts` from
crates/experimentation_platform/src/api/experiments/helpers.rs
(lines 53-81), applied to the two extracted dimension maps.  `ref_keys`
is the key list of the smaller map (the first map on ties); the loop
with early break over `ref_keys` is `List.all`. -/
def are_overlapping_contexts (dimensions_a dimensions_b : Dims) : Bool :=
  let dim_a_keys := dimsKeys dimensions_a
  let dim_b_keys := dimsKeys dimensions_b
  let ref_keys := if dim_a_keys.length > dim_b_keys.length
                  then dim_b_keys else dim_a_keys
  ref_keys.all (fun key =>
    (containsKey dimensions_a key && containsKey dimensions_b key) &&
    (dimsGet dimensions_a key == dimsGet dimensions_b key))

/-- The three experiment-overlap flags
(service_utils::service::types::ExperimentationFlags). -/
structure ExperimentationFlags where
  allow_same_keys_overlapping_ctx : Bool
  allow_diff_keys_overlapping_ctx : Bool
  allow_same_keys_non_overlapping_ctx : Bool

/-- A stored experiment as consumed by `is_valid_experiment`: its
context (represented by its extracted dimension map, see `Dims`) and
its override keys.  The remaining db-model fields (id, status,
variants, traffic, timestamps) are not read by the embedded code. -/
structure Experiment where
  context : Dims
  override_keys : List String

/-- One iteration body plus loop of `is_valid_experiment`
(helpers.rs lines 124-162).  In the source `valid_experiment` is still
`true` whenever an iteration starts (the loop breaks as soon as it
becomes `false`), so each iteration either keeps `(true, "")` and
continues, or stops with `false` and the fixed reason string. -/
def is_valid_loop (context : Dims) (override_keys : List String)
    (flags : ExperimentationFlags) : List Experiment → Bool × String
  | [] => (true, "")
  | e :: rest =>
      let are_ov := are_overlapping_contexts context e.context
      let inter := e.override_keys.any (fun k => override_keys.contains k)
      let same := e.override_keys.all (fun k => override_keys.contains k)
      let v1 := if !flags.allow_diff_keys_overlapping_ctx
                then !(are_ov && !same) else true
      let v2 := if !flags.allow_same_keys_overlapping_ctx
                then !(are_ov && inter) else true
      let v3 := if !flags.allow_same_keys_non_overlapping_ctx
                then !(!are_ov && inter) else true
      if v1 && v2 && v3 then is_valid_loop context override_keys flags rest
      else (false,
        "This current context overlaps with an existing experiment or the keys in the context are overlapping")

/-- `is_valid_experiment` from helpers.rs lines 112-166: when all three
flags allow everything the loop is skipped and the experiment is
valid. -/
def is_valid_experiment (context : Dims) (override_keys : List String)
    (flags : ExperimentationFlags) (active_experiments : List Experiment) :
    Bool × String :=
  if !flags.allow_same_keys_overlapping_ctx ||
     !flags.allow_diff_keys_overlapping_ctx ||
     !flags.allow_same_keys_non_overlapping_ctx then
    is_valid_loop context override_keys flags active_experiments
  else (true, "")

/-- The disallowed-case test the source actually performs for one
active experiment: 'intersecting' shares at least one key, and 'same'
is the one-directional `all` test — every override key of the active
experiment lies in the proposed key set. -/
def violates_flags (context : Dims) (override_keys : List String)
    (flags : ExperimentationFlags) (e : Experiment) : Bool :=
  let are_ov := are_overlapping_contexts context e.context
  let inter := e.override_keys.any (fun k => override_keys.contains k)
  let same := e.override_keys.all (fun k => override_keys.contains k)
  (!flags.allow_diff_keys_overlapping_ctx && (are_ov && !same)) ||
  (!flags.allow_same_keys_overlapping_ctx && (are_ov && inter)) ||
  (!flags.allow_same_keys_non_overlapping_ctx && (!are_ov && inter))

/-- The disallowed-case test as the claim words it (refinement
reference, not translated from the source): here 'same' holds when
either key set is a subset of the other. -/
def claim_violates_flags (context : Dims) (override_keys : List String)
    (flags : ExperimentationFlags) (e : Experiment) : Bool :=
  let are_ov := are_overlapping_contexts context e.context
  let inter := e.override_keys.any (fun k => override_keys.contains k)
  let same := e.override_keys.all (fun k => override_keys.contains k) ||
              override_keys.all (fun k => e.override_keys.contains k)
  (!flags.allow_diff_keys_overlapping_ctx && (are_ov && !same)) ||
  (!flags.allow_same_keys_overlapping_ctx && (are_ov && inter)) ||
  (!flags.allow_same_keys_non_overlapping_ctx && (!are_ov && inter))

/-- Concrete variants used to instantiate theorems: a control variant
`c` and experimental variants `a`, `b` (spec scenario 4). -/
def sampleC : Variant := ⟨"c", .CONTROL, .obj []⟩

/-- Experimental variant `a`. -/
def sampleA : Variant := ⟨"a", .EXPERIMENTAL, .obj []⟩

/-- Experimental variant `b`. -/
def sampleB : Variant := ⟨"b", .EXPERIMENTAL, .obj []⟩

/-- C1 (amended): provided the u8 product does not overflow
(`traffic * n ≤ 255` with `n = variants.length`) and `toss < 100`,
`decide_variant` returns `none` when `toss ≥ traffic * n`, and
otherwise returns `variants[i]` where `i` is the smallest index with
`toss < traffic * (i + 1)`. -/
theorem decide_variant_buckets (traffic : Nat) (vars : List Variant) (toss : Nat)
    (hb : traffic * vars.length ≤ 255) (htoss : toss < 100) :
    (traffic * vars.length ≤ toss →
      decide_variant traffic vars toss = .ok none) ∧
    (∀ i, toss < traffic * (i + 1) →
      (∀ j, toss < traffic * (j + 1) → i ≤ j) →
      toss < traffic * vars.length →
      ∃ v, vars[i]? = some v ∧
        decide_variant traffic vars toss = .ok (some v)) := by
  by_cases htr : traffic = 0
  · subst htr
    constructor
    · intro _
      simp [decide_variant]
    · intro i h1 _ _
      omega
  · have htr' : 1 ≤ traffic := Nat.pos_of_ne_zero htr
    have hn : vars.length ≤ 255 := by
      calc vars.length = 1 * vars.length := (Nat.one_mul _).symm
        _ ≤ traffic * vars.length := Nat.mul_le_mul_right _ htr'
        _ ≤ 255 := hb
    have hvc : vars.length % 256 = vars.length := Nat.mod_eq_of_lt (by omega)
    have hrange : traffic * vars.length % 256 = traffic * vars.length :=
      Nat.mod_eq_of_lt (by omega)
    constructor
    · intro h
      simp only [decide_variant, hvc, hrange]
      rw [if_pos h]
    · intro i h1 hmin h2
      have hn1 : 1 ≤ vars.length := by
        rcases Nat.eq_zero_or_pos vars.length with h0 | h0
        · rw [h0, Nat.mul_zero] at h2; omega
        · omega
      have hi : i < vars.length := by
        have := hmin (vars.length - 1)
          (by have : vars.length - 1 + 1 = vars.length := by omega
              rw [this]; exact h2)
        omega
      have hpos :
          position (fun k => decide (toss < traffic * (k + 1) % 256))
            (List.range vars.length) = some i := by
        refine (position_range_eq_some _ _ _).mpr ⟨hi, ?_, ?_⟩
        · have hle : traffic * (i + 1) ≤ 255 := by
            calc traffic * (i + 1) ≤ traffic * vars.length :=
                  Nat.mul_le_mul_left _ (by omega)
              _ ≤ 255 := hb
          rw [Nat.mod_eq_of_lt (by omega)]
          exact decide_eq_true h1
        · intro j hj
          have hle : traffic * (j + 1) ≤ 255 := by
            calc traffic * (j + 1) ≤ traffic * vars.length :=
                  Nat.mul_le_mul_left _ (by omega)
              _ ≤ 255 := hb
          rw [Nat.mod_eq_of_lt (by omega)]
          refine decide_eq_false ?_
          intro hlt
          exact absurd (hmin j hlt) (by omega)
      refine ⟨vars[i], by simp [hi], ?_⟩
      simp only [decide_variant, hvc, hrange]
      rw [if_neg (by omega), position_map, hpos]
      simp [hi]

/-- C1 witness, the four spec examples: `decide(10, [c, a, b], 5)`
gives index 0 (`c`), toss 15 index 1 (`a`), toss 25 index 2 (`b`) and
toss 31 gives none. -/
theorem decide_variant_buckets_witness :
    (∃ v, [sampleC, sampleA, sampleB][0]? = some v ∧
      decide_variant 10 [sampleC, sampleA, sampleB] 5 = .ok (some v)) ∧
    (∃ v, [sampleC, sampleA, sampleB][1]? = some v ∧
      decide_variant 10 [sampleC, sampleA, sampleB] 15 = .ok (some v)) ∧
    (∃ v, [sampleC, sampleA, sampleB][2]? = some v ∧
      decide_variant 10 [sampleC, sampleA, sampleB] 25 = .ok (some v)) ∧
    decide_variant 10 [sampleC, sampleA, sampleB] 31 = .ok none :=
  ⟨(decide_variant_buckets 10 [sampleC, sampleA, sampleB] 5 (by norm_num)
      (by norm_num)).2 0 (by norm_num) (fun j hj => by omega) (by norm_num),
   (decide_variant_buckets 10 [sampleC, sampleA, sampleB] 15 (by norm_num)
      (by norm_num)).2 1 (by norm_num) (fun j hj => by omega) (by norm_num),
   (decide_variant_buckets 10 [sampleC, sampleA, sampleB] 25 (by norm_num)
      (by norm_num)).2 2 (by norm_num) (fun j hj => by omega) (by norm_num),
   (decide_variant_buckets 10 [sampleC, sampleA, sampleB] 31 (by norm_num)
      (by norm_num)).1 (by norm_num)⟩

/-- C1 counterexample: at `traffic = 90`, three variants and
`toss = 50`, the u8 product `90 * 3 = 270` wraps to 14, so the code
returns `none`; the claim (true bucketing for every
`traffic_percentage`) demands `variants[0] = c` since `50 < 90 * 1`. -/
theorem decide_variant_claim_counterexample :
    decide_variant 90 [sampleC, sampleA, sampleB] 50 = .ok none ∧
    50 < 90 * (0 + 1) ∧
    decide_variant 90 [sampleC, sampleA, sampleB] 50 ≠ .ok (some sampleC) := by
  refine ⟨by rfl, by norm_num, ?_⟩
  intro h
  have : (none : Option Variant) = some sampleC := by
    have h' : decide_variant 90 [sampleC, sampleA, sampleB] 50 = .ok none := rfl
    rw [h'] at h
    exact RustResult.ok.inj h
  exact Option.noConfusion this

/-- C2: for `toss ∈ [0, 100)` the assigner is total: it never panics
(the `index.unwrap()` always succeeds) and returns either `None` or an
element of the variant list. -/
theorem decide_variant_total (traffic : Nat) (vars : List Variant) (toss : Nat)
    (htoss : toss < 100) :
    ∃ res : Option Variant, decide_variant traffic vars toss = .ok res ∧
      ∀ v, res = some v → v ∈ vars := by
  simp only [decide_variant]
  by_cases hc : traffic * (vars.length % 256) % 256 ≤ toss
  · refine ⟨none, ?_, by simp⟩
    rw [if_pos hc]
  · push_neg at hc
    have hvc1 : 1 ≤ vars.length % 256 := by
      by_contra h0
      have : vars.length % 256 = 0 := by omega
      rw [this, Nat.mul_zero] at hc
      omega
    have hne :
        position (fun x => decide (toss < x))
          ((List.range (vars.length % 256)).map
            (fun i => traffic * (i + 1) % 256)) ≠ none := by
      intro hnone
      rw [position_eq_none_iff] at hnone
      have hmem : traffic * (vars.length % 256 - 1 + 1) % 256 ∈
          (List.range (vars.length % 256)).map
            (fun i => traffic * (i + 1) % 256) := by
        refine List.mem_map.mpr ⟨vars.length % 256 - 1, ?_, rfl⟩
        exact List.mem_range.mpr (by omega)
      have := hnone _ hmem
      rw [decide_eq_false_iff_not] at this
      have heq : vars.length % 256 - 1 + 1 = vars.length % 256 := by omega
      rw [heq] at this
      exact this (by omega)
    rcases Option.ne_none_iff_exists'.mp hne with ⟨i, hpos⟩
    have hi : i < vars.length % 256 := by
      rw [position_map] at hpos
      exact ((position_range_eq_some _ _ _).mp hpos).1
    have hi' : i < vars.length := lt_of_lt_of_le hi (Nat.mod_le _ _)
    refine ⟨some vars[i], ?_, ?_⟩
    · rw [if_neg (by omega), hpos]
      simp [hi']
    · intro v hv
      rw [Option.some_inj] at hv
      rw [← hv]
      exact List.getElem_mem hi'

/-- C2 witness: at `traffic = 10`, three variants, `toss = 5`, the
assigner returns without panic and any assigned variant is in the
list. -/
theorem decide_variant_total_witness :
    ∃ res : Option Variant,
      decide_variant 10 [sampleC, sampleA, sampleB] 5 = .ok res ∧
      ∀ v, res = some v → v ∈ [sampleC, sampleA, sampleB] :=
  decide_variant_total 10 [sampleC, sampleA, sampleB] 5 (by norm_num)

theorem beq_symm {α : Type _} [BEq α] [LawfulBEq α] (x y : α) :
    (x == y) = (y == x) := by
  rw [← Bool.coe_iff_coe]
  simp only [beq_iff_eq]
  exact eq_comm

theorem containsKey_iff_mem (d : Dims) (k : String) :
    containsKey d k = true ↔ k ∈ dimsKeys d := by
  unfold containsKey dimsGet dimsKeys
  rw [Option.isSome_map', List.find?_isSome]
  constructor
  · rintro ⟨x, hx, hxk⟩
    exact List.mem_map.mpr ⟨x, hx, by simpa using hxk⟩
  · intro hk
    rcases List.mem_map.mp hk with ⟨x, hx, hxk⟩
    exact ⟨x, hx, by simp [hxk]⟩

theorem overlap_test_iff (a b : Dims) (k : String) :
    ((containsKey a k && containsKey b k) &&
      (dimsGet a k == dimsGet b k)) = true ↔
      ∃ v, dimsGet a k = some v ∧ dimsGet b k = some v := by
  cases ha : dimsGet a k with
  | none => simp [containsKey, ha]
  | some v₁ =>
      cases hb : dimsGet b k with
      | none => simp [containsKey, ha, hb]
      | some v₂ =>
          simp only [containsKey, ha, hb, Option.isSome_some, Bool.true_and,
            beq_iff_eq, Option.some_inj]
          constructor
          · rintro rfl
            exact ⟨v₁, rfl, rfl⟩
          · rintro ⟨v, rfl, hv⟩
            exact hv.symm

theorem all_congr_list {α : Type _} {l : List α} {p q : α → Bool}
    (h : ∀ x ∈ l, p x = q x) : l.all p = l.all q := by
  induction l with
  | nil => rfl
  | cons a t ih =>
      simp only [List.all_cons, h a (List.mem_cons_self a t),
        ih (fun x hx => h x (List.mem_cons_of_mem a hx))]

/-- C4: `are_overlapping_contexts` returns true exactly when the two
extracted dimension maps agree (key present in both with equal value)
on every key of the smaller map (the first map on equal sizes, as the
source chooses). -/
theorem are_overlapping_contexts_iff (a b : Dims) :
    are_overlapping_contexts a b = true ↔
      ∀ k ∈ dimsKeys (if (dimsKeys a).length > (dimsKeys b).length
                      then b else a),
        ∃ v, dimsGet a k = some v ∧ dimsGet b k = some v := by
  simp only [are_overlapping_contexts]
  by_cases hlen : (dimsKeys a).length > (dimsKeys b).length
  · rw [if_pos hlen, if_pos hlen, List.all_eq_true]
    exact forall₂_congr fun k _ => overlap_test_iff a b k
  · rw [if_neg hlen, if_neg hlen, List.all_eq_true]
    exact forall₂_congr fun k _ => overlap_test_iff a b k

theorem subset_of_nodup_of_length_le {l₁ l₂ : List String}
    (h₁ : l₁.Nodup) (h₂ : l₂.Nodup) (hsub : ∀ x ∈ l₁, x ∈ l₂)
    (hlen : l₂.length ≤ l₁.length) : ∀ x ∈ l₂, x ∈ l₁ := by
  have hfin : l₁.toFinset ⊆ l₂.toFinset := by
    intro x hx
    exact List.mem_toFinset.mpr (hsub x (List.mem_toFinset.mp hx))
  have hcard : l₂.toFinset.card ≤ l₁.toFinset.card := by
    rw [List.toFinset_card_of_nodup h₁, List.toFinset_card_of_nodup h₂]
    exact hlen
  have heq := Finset.eq_of_subset_of_card_le hfin hcard
  intro x hx
  exact List.mem_toFinset.mp (heq ▸ List.mem_toFinset.mpr hx)

/-- C10: `are_overlapping_contexts` is symmetric (the extracted maps
have unique keys, hence the `Nodup` hypotheses). -/
theorem are_overlapping_contexts_symm (a b : Dims)
    (ha : (dimsKeys a).Nodup) (hb : (dimsKeys b).Nodup) :
    are_overlapping_contexts a b = are_overlapping_contexts b a := by
  have htest : ∀ k,
      ((containsKey a k && containsKey b k) &&
        (dimsGet a k == dimsGet b k)) =
      ((containsKey b k && containsKey a k) &&
        (dimsGet b k == dimsGet a k)) := by
    intro k
    rw [Bool.and_comm (containsKey a k), beq_symm]
  simp only [are_overlapping_contexts]
  rcases lt_trichotomy (dimsKeys a).length (dimsKeys b).length with hlt | heq | hgt
  · rw [if_neg (by omega), if_pos (by omega)]
    exact all_congr_list fun k _ => htest k
  · rw [if_neg (by omega), if_neg (by omega)]
    rw [show ((dimsKeys b).all fun key =>
        (containsKey b key && containsKey a key) &&
          (dimsGet b key == dimsGet a key)) =
        ((dimsKeys b).all fun key =>
        (containsKey a key && containsKey b key) &&
          (dimsGet a key == dimsGet b key)) from
      all_congr_list fun k _ => (htest k).symm]
    rw [← Bool.coe_iff_coe, List.all_eq_true, List.all_eq_true]
    constructor
    · intro hall k hkb
      have hsub : ∀ x ∈ dimsKeys a, x ∈ dimsKeys b := by
        intro x hx
        have := hall x hx
        simp only [Bool.and_eq_true] at this
        exact (containsKey_iff_mem b x).mp this.1.2
      have hka : k ∈ dimsKeys a :=
        subset_of_nodup_of_length_le ha hb hsub (by omega) k hkb
      exact hall k hka
    · intro hall k hka
      have hsub : ∀ x ∈ dimsKeys b, x ∈ dimsKeys a := by
        intro x hx
        have := hall x hx
        simp only [Bool.and_eq_true] at this
        exact (containsKey_iff_mem a x).mp this.1.1
      have hkb : k ∈ dimsKeys b :=
        subset_of_nodup_of_length_le hb ha hsub (by omega) k hka
      exact hall k hkb
  · rw [if_pos (by omega), if_neg (by omega)]
    exact all_congr_list fun k _ => htest k

/-- C10 witness: symmetry at a concrete pair of maps. -/
theorem are_overlapping_contexts_symm_witness :
    are_overlapping_contexts [("x", Json.num 1)] [] =
      are_overlapping_contexts [] [("x", Json.num 1)] :=
  are_overlapping_contexts_symm [("x", Json.num 1)] []
    (by simp [dimsKeys]) (by simp [dimsKeys])

theorem if_not_flip {α : Type _} (x : Bool) (A B : α) :
    (if !x then A else B) = if x then B else A := by
  cases x <;> rfl

theorem step_bool (d s n ov inter same : Bool) :
    ((if !d then !(ov && !same) else true) &&
      (if !s then !(ov && inter) else true) &&
      (if !n then !(!ov && inter) else true)) =
    !((!d && (ov && !same)) || (!s && (ov && inter)) ||
      (!n && (!ov && inter))) := by
  cases d <;> cases s <;> cases n <;> cases ov <;> cases inter <;> cases same <;> rfl

theorem is_valid_loop_cons (c : Dims) (ks : List String)
    (f : ExperimentationFlags) (e : Experiment) (rest : List Experiment) :
    is_valid_loop c ks f (e :: rest) =
      if violates_flags c ks f e
      then (false,
        "This current context overlaps with an existing experiment or the keys in the context are overlapping")
      else is_valid_loop c ks f rest := by
  simp only [is_valid_loop, violates_flags]
  rw [step_bool]
  exact if_not_flip _ _ _

theorem is_valid_loop_false_iff (c : Dims) (ks : List String)
    (f : ExperimentationFlags) (l : List Experiment) :
    (is_valid_loop c ks f l).1 = false ↔
      ∃ e ∈ l, violates_flags c ks f e = true := by
  induction l with
  | nil => simp [is_valid_loop]
  | cons e rest ih =>
      rw [is_valid_loop_cons]
      by_cases hD : violates_flags c ks f e = true
      · simp [hD]
      · simp only [Bool.not_eq_true] at hD
        simp [hD, ih]

theorem valid_experiment_invalid_iff (context : Dims)
    (override_keys : List String) (flags : ExperimentationFlags)
    (active_experiments : List Experiment) :
    (is_valid_experiment context override_keys flags active_experiments).1
        = false ↔
      ∃ e ∈ active_experiments,
        violates_flags context override_keys flags e = true := by
  simp only [is_valid_experiment]
  by_cases hguard : (!flags.allow_same_keys_overlapping_ctx ||
      !flags.allow_diff_keys_overlapping_ctx ||
      !flags.allow_same_keys_non_overlapping_ctx) = true
  · rw [if_pos hguard]
    exact is_valid_loop_false_iff context override_keys flags
      active_experiments
  · rw [if_neg hguard]
    have hf : (!flags.allow_same_keys_overlapping_ctx ||
        !flags.allow_diff_keys_overlapping_ctx ||
        !flags.allow_same_keys_non_overlapping_ctx) = false :=
      Bool.eq_false_iff.mpr hguard
    simp only [Bool.or_eq_false_iff, Bool.not_eq_false'] at hf
    obtain ⟨⟨hs, hd⟩, hn⟩ := hf
    constructor
    · intro h
      exact absurd h (by simp)
    · rintro ⟨e, -, hv⟩
      rw [violates_flags] at hv
      simp [hs, hd, hn] at hv

/-- C3 (amended): `is_valid_experiment` reports invalid exactly when
some active experiment triggers a disallowed case, where 'same' is the
one-directional `all` test of the source: the active experiment's key
set is a subset of the proposed key set (`violates_flags`). -/
theorem is_valid_experiment_false_iff (context : Dims)
    (override_keys : List String) (flags : ExperimentationFlags)
    (active_experiments : List Experiment) :
    (is_valid_experiment context override_keys flags active_experiments).1
        = false ↔
      ∃ e ∈ active_experiments,
        violates_flags context override_keys flags e = true :=
  valid_experiment_invalid_iff context override_keys flags
    active_experiments

/-- A concrete context dimension map used in counterexamples. -/
def ctxIN : Dims := [("country", Json.str "IN")]

/-- C3 counterexample: proposed keys `[a]`, an active experiment with
the same context and keys `[a, b]`, and only
`allow_diff_keys_overlapping_ctx` disallowed.  Under the claim's
symmetric 'same' (`[a] ⊆ [a, b]`) no case triggers, yet the code
reports invalid because its `all` test only checks the active keys
against the proposed set. -/
theorem is_valid_experiment_claim_counterexample :
    (is_valid_experiment ctxIN ["a"]
        ⟨true, false, true⟩ [⟨ctxIN, ["a", "b"]⟩]).1 = false ∧
    claim_violates_flags ctxIN ["a"]
        ⟨true, false, true⟩ ⟨ctxIN, ["a", "b"]⟩ = false := by
  constructor <;> rfl

/-- C9: a context whose extracted dimension map is empty overlaps
every context, and with the overlap-restricting flags set to disallow,
an active experiment with such a context and an intersecting key set
makes any proposed experiment invalid. -/
theorem dimensionless_context_overlaps (a b d : Dims) (ks : List String)
    (e : Experiment) (hab : dimsKeys a = [] ∨ dimsKeys b = [])
    (he : e.context = [])
    (hint : e.override_keys.any (fun k => ks.contains k) = true) :
    are_overlapping_contexts a b = true ∧
    (is_valid_experiment d ks ⟨false, false, false⟩ [e]).1 = false := by
  have hnil : ∀ x y : Dims, dimsKeys x = [] ∨ dimsKeys y = [] →
      are_overlapping_contexts x y = true := by
    intro x y hxy
    simp only [are_overlapping_contexts]
    rcases hxy with h | h
    · rw [if_neg (by simp [h]), h, List.all_nil]
    · by_cases hx : (dimsKeys x).length > (dimsKeys y).length
      · rw [if_pos hx, h, List.all_nil]
      · rw [if_neg hx]
        have : (dimsKeys x).length = 0 := by
          rw [h] at hx
          simpa using hx
        rw [List.length_eq_zero.mp this, List.all_nil]
  refine ⟨hnil a b hab, ?_⟩
  rw [valid_experiment_invalid_iff]
  refine ⟨e, List.mem_cons_self e [], ?_⟩
  simp only [violates_flags, Bool.not_false, Bool.true_and, Bool.or_eq_true,
    Bool.and_eq_true]
  refine Or.inl (Or.inr ⟨?_, hint⟩)
  exact hnil d e.context (Or.inr (by rw [he]; rfl))

/-- C9 witness: the empty dimension map overlaps `[(x, 1)]`, and an
active experiment with empty context dims and key `k` blocks a
proposal with key `k` when all flags disallow. -/
theorem dimensionless_context_overlaps_witness :
    are_overlapping_contexts [] [("x", Json.num 1)] = true ∧
    (is_valid_experiment [] ["k"] ⟨false, false, false⟩
        [⟨[], ["k"]⟩]).1 = false :=
  dimensionless_context_overlaps [] [("x", Json.num 1)] [] ["k"]
    ⟨[], ["k"]⟩ (Or.inl rfl) rfl (by rfl)

/-- Client-side experiment status.  The client's types module is not
among the embedded sources, but the `match` in `run_polling_updates`
(lib.rs lines 56-63) is exhaustive over exactly these two variants.
Modelled from the spec: statuses handled by the client poller
(spec section 4.8). -/
inductive ExperimentStatusType where
  | CONCLUDED : ExperimentStatusType
  | INPROGRESS : ExperimentStatusType
  deriving DecidableEq

/-- Modelled from the spec: the client-side experiment record
(superposition_client's types module is not among the embedded
sources); fields per spec section 3 as used by lib.rs. -/
structure ClientExperiment where
  id : Int
  status : ExperimentStatusType
  context : Json
  variants : List Variant
  traffic_percentage : Nat
  deriving DecidableEq

/-- The client's experiment map `experiment_id → Experiment`
(`ExperimentStore = HashMap<String, Experiment>`), as an association
list with HashMap get/remove/insert semantics. -/
abbrev ExperimentStore := List (String × ClientExperiment)

/-- `HashMap::get`. -/
def storeGet (s : ExperimentStore) (k : String) : Option ClientExperiment :=
  (s.find? (fun p => p.1 == k)).map Prod.snd

/-- `HashMap::remove`. -/
def storeRemove (s : ExperimentStore) (k : String) : ExperimentStore :=
  s.filter (fun p => !(p.1 == k))

/-- `HashMap::insert`: replace the entry for the key, or add one. -/
def storeInsert (s : ExperimentStore) (k : String) (v : ClientExperiment) :
    ExperimentStore :=
  if s.any (fun p => p.1 == k) then
    s.map (fun p => if p.1 == k then (k, v) else p)
  else s ++ [(k, v)]

/-- The per-experiment body of the poll loop, `run_polling_updates`
lib.rs lines 56-63: a CONCLUDED experiment is removed from the store
and an INPROGRESS one is inserted/replaced. -/
def poll_step (store : ExperimentStore)
    (p : String × ClientExperiment) : ExperimentStore :=
  match p.2.status with
  | .CONCLUDED => storeRemove store p.1
  | .INPROGRESS => storeInsert store p.1 p.2

/-- The map mutation of one poll tick, `run_polling_updates` lib.rs
lines 55-64: `poll_step` applied to each fetched
`(exp_id, experiment)` pair in turn.  The fetched batch is itself a
HashMap keyed by experiment id, so its key list has no duplicates. -/
def poll_tick (exp_store : ExperimentStore)
    (batch : List (String × ClientExperiment)) : ExperimentStore :=
  batch.foldl poll_step exp_store

theorem storeGet_cons (p : String × ClientExperiment)
    (t : ExperimentStore) (k : String) :
    storeGet (p :: t) k =
      if p.1 == k then some p.2 else storeGet t k := by
  simp only [storeGet, List.find?]
  cases h : (p.1 == k) <;> simp [h]

theorem storeRemove_cons (p : String × ClientExperiment)
    (t : ExperimentStore) (k : String) :
    storeRemove (p :: t) k =
      if p.1 == k then storeRemove t k else p :: storeRemove t k := by
  simp only [storeRemove, List.filter]
  cases h : (p.1 == k) <;> simp [h]

theorem storeGet_remove_self (s : ExperimentStore) (k : String) :
    storeGet (storeRemove s k) k = none := by
  induction s with
  | nil => rfl
  | cons p t ih =>
      rw [storeRemove_cons]
      by_cases h : (p.1 == k) = true
      · rw [if_pos h]; exact ih
      · rw [if_neg h, storeGet_cons,
          if_neg (by simpa using h)]
        exact ih

theorem storeGet_remove_ne (s : ExperimentStore) (k k' : String)
    (h : k' ≠ k) : storeGet (storeRemove s k) k' = storeGet s k' := by
  induction s with
  | nil => rfl
  | cons p t ih =>
      rw [storeRemove_cons]
      by_cases hpk : (p.1 == k) = true
      · rw [if_pos hpk, storeGet_cons]
        have hpk' : ¬ ((p.1 == k') = true) := by
          rw [beq_iff_eq] at hpk ⊢
          rw [hpk]
          exact Ne.symm h
        rw [if_neg hpk']
        exact ih
      · rw [if_neg hpk, storeGet_cons, storeGet_cons]
        by_cases hpk' : (p.1 == k') = true
        · rw [if_pos hpk', if_pos hpk']
        · rw [if_neg hpk', if_neg hpk']
          exact ih

theorem storeGet_map_self (k : String) (v : ClientExperiment)
    (s : ExperimentStore) (hany : s.any (fun p => p.1 == k) = true) :
    storeGet (s.map (fun p => if p.1 == k then (k, v) else p)) k
      = some v := by
  induction s with
  | nil => simp at hany
  | cons p t ih =>
      rw [List.map_cons]
      by_cases hpk : (p.1 == k) = true
      · rw [if_pos hpk, storeGet_cons]
        rw [if_pos (by simp)]
      · rw [if_neg hpk, storeGet_cons, if_neg hpk]
        refine ih ?_
        have := List.any_cons (l := t) (a := p)
          (f := fun p => p.1 == k) ▸ hany
        rcases Bool.or_eq_true_iff.mp this with hc | hc
        · exact absurd hc hpk
        · exact hc

theorem storeGet_map_ne (k k' : String) (v : ClientExperiment)
    (h : k' ≠ k) (s : ExperimentStore) :
    storeGet (s.map (fun p => if p.1 == k then (k, v) else p)) k'
      = storeGet s k' := by
  induction s with
  | nil => rfl
  | cons p t ih =>
      rw [List.map_cons]
      by_cases hpk : (p.1 == k) = true
      · rw [if_pos hpk, storeGet_cons]
        rw [if_neg (by simpa using Ne.symm h), storeGet_cons,
          if_neg (by rw [beq_iff_eq] at hpk ⊢; rw [hpk]; exact Ne.symm h)]
        exact ih
      · rw [if_neg hpk, storeGet_cons, storeGet_cons]
        by_cases hpk' : (p.1 == k') = true
        · rw [if_pos hpk', if_pos hpk']
        · rw [if_neg hpk', if_neg hpk']
          exact ih

theorem storeGet_append_single_ne (s : ExperimentStore) (k k' : String)
    (v : ClientExperiment) (h : k' ≠ k) :
    storeGet (s ++ [(k, v)]) k' = storeGet s k' := by
  induction s with
  | nil =>
      rw [List.nil_append, storeGet_cons,
        if_neg (by simpa using Ne.symm h)]
  | cons p t ih =>
      rw [List.cons_append, storeGet_cons, storeGet_cons]
      by_cases hpk' : (p.1 == k') = true
      · rw [if_pos hpk', if_pos hpk']
      · rw [if_neg hpk', if_neg hpk']
        exact ih

theorem storeGet_append_single_self (s : ExperimentStore) (k : String)
    (v : ClientExperiment) (h : storeGet s k = none) :
    storeGet (s ++ [(k, v)]) k = some v := by
  induction s with
  | nil =>
      rw [List.nil_append, storeGet_cons, if_pos (by simp)]
  | cons p t ih =>
      rw [storeGet_cons] at h
      by_cases hpk : (p.1 == k) = true
      · rw [if_pos hpk] at h
        exact absurd h (by simp)
      · rw [if_neg hpk] at h
        rw [List.cons_append, storeGet_cons, if_neg hpk]
        exact ih h

theorem storeGet_none_of_not_any (s : ExperimentStore) (k : String)
    (hany : ¬ s.any (fun p => p.1 == k) = true) :
    storeGet s k = none := by
  induction s with
  | nil => rfl
  | cons p t ih =>
      rw [storeGet_cons]
      by_cases hpk : (p.1 == k) = true
      · exact absurd (by rw [List.any_cons, hpk, Bool.true_or]) hany
      · rw [if_neg hpk]
        refine ih ?_
        intro hc
        exact hany (by rw [List.any_cons, hc, Bool.or_true])

theorem storeGet_insert_self (s : ExperimentStore) (k : String)
    (v : ClientExperiment) : storeGet (storeInsert s k v) k = some v := by
  simp only [storeInsert]
  by_cases hany : s.any (fun p => p.1 == k) = true
  · rw [if_pos hany]
    exact storeGet_map_self k v s hany
  · rw [if_neg hany]
    exact storeGet_append_single_self s k v
      (storeGet_none_of_not_any s k hany)

theorem storeGet_insert_ne (s : ExperimentStore) (k k' : String)
    (v : ClientExperiment) (h : k' ≠ k) :
    storeGet (storeInsert s k v) k' = storeGet s k' := by
  simp only [storeInsert]
  by_cases hany : s.any (fun p => p.1 == k) = true
  · rw [if_pos hany]
    exact storeGet_map_ne k k' v h s
  · rw [if_neg hany]
    exact storeGet_append_single_ne s k k' v h

theorem poll_tick_cons (s : ExperimentStore)
    (p : String × ClientExperiment)
    (batch : List (String × ClientExperiment)) :
    poll_tick s (p :: batch) = poll_tick (poll_step s p) batch := rfl

theorem storeGet_poll_step_ne (s : ExperimentStore)
    (p : String × ClientExperiment) (id : String) (h : id ≠ p.1) :
    storeGet (poll_step s p) id = storeGet s id := by
  cases hst : p.2.status with
  | CONCLUDED =>
      simp only [poll_step, hst]
      exact storeGet_remove_ne s p.1 id h
  | INPROGRESS =>
      simp only [poll_step, hst]
      exact storeGet_insert_ne s p.1 id p.2 h

theorem storeGet_poll_tick_not_mem
    (batch : List (String × ClientExperiment)) :
    ∀ (s : ExperimentStore) (id : String),
      id ∉ batch.map Prod.fst →
      storeGet (poll_tick s batch) id = storeGet s id := by
  induction batch with
  | nil => intro s id _; rfl
  | cons p t ih =>
      intro s id h
      rw [List.map_cons] at h
      have hne : id ≠ p.1 := fun he => h (he ▸ List.mem_cons_self p.1 _)
      have ht : id ∉ t.map Prod.fst :=
        fun hc => h (List.mem_cons_of_mem p.1 hc)
      rw [poll_tick_cons, ih (poll_step s p) id ht,
        storeGet_poll_step_ne s p id hne]

theorem storeGet_poll_tick_concluded
    (batch : List (String × ClientExperiment))
    (hnodup : (batch.map Prod.fst).Nodup) :
    ∀ (s : ExperimentStore) (id : String) (e : ClientExperiment),
      (id, e) ∈ batch → e.status = .CONCLUDED →
      storeGet (poll_tick s batch) id = none := by
  induction batch with
  | nil => intro s id e hm _; cases hm
  | cons p t ih =>
      intro s id e hm hst
      rw [List.map_cons, List.nodup_cons] at hnodup
      rw [poll_tick_cons]
      rcases List.mem_cons.mp hm with heq | hmt
      · have hp1 : p.1 = id := by rw [← heq]
        have hid : id ∉ t.map Prod.fst := hp1 ▸ hnodup.1
        rw [storeGet_poll_tick_not_mem t (poll_step s p) id hid]
        have hstep : poll_step s p = storeRemove s p.1 := by
          have : p.2.status = .CONCLUDED := by rw [← heq, hst]
          simp only [poll_step, this]
        rw [hstep, hp1]
        exact storeGet_remove_self s id
      · exact ih hnodup.2 (poll_step s p) id e hmt hst

theorem storeGet_poll_tick_inprogress
    (batch : List (String × ClientExperiment))
    (hnodup : (batch.map Prod.fst).Nodup) :
    ∀ (s : ExperimentStore) (id : String) (e : ClientExperiment),
      (id, e) ∈ batch → e.status = .INPROGRESS →
      storeGet (poll_tick s batch) id = some e := by
  induction batch with
  | nil => intro s id e hm _; cases hm
  | cons p t ih =>
      intro s id e hm hst
      rw [List.map_cons, List.nodup_cons] at hnodup
      rw [poll_tick_cons]
      rcases List.mem_cons.mp hm with heq | hmt
      · have hp1 : p.1 = id := by rw [← heq]
        have hp2 : p.2 = e := by rw [← heq]
        have hid : id ∉ t.map Prod.fst := hp1 ▸ hnodup.1
        rw [storeGet_poll_tick_not_mem t (poll_step s p) id hid]
        have hstep : poll_step s p = storeInsert s p.1 p.2 := by
          have : p.2.status = .INPROGRESS := by rw [hp2, hst]
          simp only [poll_step, this]
        rw [hstep, hp1, hp2]
        exact storeGet_insert_self s id e
      · exact ih hnodup.2 (poll_step s p) id e hmt hst

/-- C5: after one poll-tick processing of a fetched batch (a map, so
its ids are duplicate-free), every fetched CONCLUDED experiment is
absent from the client map, every fetched INPROGRESS experiment maps
to the fetched record, ids outside the batch are unchanged, and an
empty batch leaves the map unchanged. -/
theorem poll_tick_spec (store : ExperimentStore)
    (batch : List (String × ClientExperiment))
    (hnodup : (batch.map Prod.fst).Nodup) :
    (∀ id e, (id, e) ∈ batch → e.status = .CONCLUDED →
      storeGet (poll_tick store batch) id = none) ∧
    (∀ id e, (id, e) ∈ batch → e.status = .INPROGRESS →
      storeGet (poll_tick store batch) id = some e) ∧
    (∀ id, id ∉ batch.map Prod.fst →
      storeGet (poll_tick store batch) id = storeGet store id) ∧
    poll_tick store [] = store :=
  ⟨fun id e hm hst =>
      storeGet_poll_tick_concluded batch hnodup store id e hm hst,
    fun id e hm hst =>
      storeGet_poll_tick_inprogress batch hnodup store id e hm hst,
    fun id hid => storeGet_poll_tick_not_mem batch store id hid,
    rfl⟩

/-- A stale INPROGRESS record for id 1, present before the tick. -/
def expOld : ClientExperiment := ⟨1, .INPROGRESS, Json.null, [sampleC, sampleA], 5⟩

/-- The freshly fetched CONCLUDED record for id 1. -/
def expDone : ClientExperiment := ⟨1, .CONCLUDED, Json.null, [sampleC, sampleA], 10⟩

/-- The freshly fetched INPROGRESS record for id 2. -/
def expRun : ClientExperiment := ⟨2, .INPROGRESS, Json.null, [sampleC, sampleB], 10⟩

/-- An untouched record for id 3, not in the fetched batch. -/
def expOther : ClientExperiment := ⟨3, .INPROGRESS, Json.null, [sampleC], 0⟩

/-- C5 witness: a concrete tick removing a concluded experiment,
replacing an in-progress one and leaving an untouched id unchanged. -/
theorem poll_tick_spec_witness :
    storeGet (poll_tick [("1", expOld), ("3", expOther)]
      [("1", expDone), ("2", expRun)]) "1" = none ∧
    storeGet (poll_tick [("1", expOld), ("3", expOther)]
      [("1", expDone), ("2", expRun)]) "2" = some expRun ∧
    storeGet (poll_tick [("1", expOld), ("3", expOther)]
      [("1", expDone), ("2", expRun)]) "3" =
      storeGet [("1", expOld), ("3", expOther)] "3" ∧
    poll_tick [("1", expOld), ("3", expOther)] [] =
      [("1", expOld), ("3", expOther)] := by
  have h := poll_tick_spec [("1", expOld), ("3", expOther)]
    [("1", expDone), ("2", expRun)] (by decide)
  exact ⟨h.1 "1" expDone (List.mem_cons_self _ _) rfl,
    h.2.1 "2" expRun (List.mem_cons_of_mem _ (List.mem_cons_self _ _)) rfl,
    h.2.2.1 "3" (by decide),
    h.2.2.2⟩

/-- Error taxonomy (service_utils), restricted to the constructors the
embedded handlers produce. -/
inductive AppError where
  | badArgument (msg : String) : AppError
  | validationError (msg : String) : AppError
  | unexpected (msg : String) : AppError
  | notFound (msg : String) : AppError
  | dbError (msg : String) : AppError
  deriving DecidableEq

/-- The default-config PUT body
(context_aware_config api/default_config CreateReq): `value` is an
optional JSON value, `schema` an optional JSON object
(`Map<String, Value>`), `function_name` an optional raw JSON value. -/
structure CreateReq where
  value : Option Json
  schema : Option (List (String × Json))
  function_name : Option Json

/-- A stored DefaultConfig row (db model), without the `created_at`
timestamp (wall-clock time is not modelled; no embedded code reads
it). -/
structure DefaultConfig where
  key : String
  value : Json
  schema : Json
  function_name : Option String
  created_by : String
  deriving DecidableEq

/-- `fetch_default_key` (handlers.rs lines 171-184): the
(value, schema, function_name) of the row with the given key. -/
def fetch_default_key (key : String) (store : List DefaultConfig) :
    Option (Json × Json × Option String) :=
  (store.find? (fun d => d.key == key)).map
    (fun d => (d.value, d.schema, d.function_name))

/-- The `insert … on_conflict(key) do_update` upsert
(handlers.rs lines 151-156): replace the row with the same key, or
append. -/
def upsertConfig (store : List DefaultConfig) (d : DefaultConfig) :
    List DefaultConfig :=
  if store.any (fun x => x.key == d.key) then
    store.map (fun x => if x.key == d.key then d else x)
  else store ++ [d]

/-- The `func_name` match of the create handler (handlers.rs lines
58-66): a string gives the name, null or absent gives none, anything
else is a bad argument. -/
def parse_function_name : Option Json → Except AppError (Option String)
  | some (.str s) => .ok (some s)
  | some .null => .ok none
  | none => .ok none
  | some _ =>
      .error (.badArgument "Expected a string or null as the function name.")

/-- The tail of the create handler once the `DefaultConfig` record is
assembled (handlers.rs lines 96-168): run the validation pipeline,
then upsert.  The pipeline of lines 105-149 (metaschema check, Draft-7
compile, value-vs-schema validation, published-function lookup and
check) is performed by external libraries and stores and is abstracted
as the `validateRecord` parameter. -/
def finish_create (validateRecord : DefaultConfig → Except AppError Unit)
    (store : List DefaultConfig) (default_config : DefaultConfig) :
    Except AppError (List DefaultConfig) :=
  match validateRecord default_config with
  | .error e => .error e
  | .ok _ => .ok (upsertConfig store default_config)

/-- The default-config `create` (PUT) handler, handlers.rs lines
41-169: reject an empty body, parse the function name, merge the
request with the stored record (or require `value` and `schema` for a
new key), then validate and upsert via `finish_create`. -/
def create (validateRecord : DefaultConfig → Except AppError Unit)
    (store : List DefaultConfig) (user_email key : String)
    (req : CreateReq) : Except AppError (List DefaultConfig) :=
  if req.value.isNone && req.schema.isNone && req.function_name.isNone then
    .error (.badArgument "Please provide data in the request body.")
  else
    match parse_function_name req.function_name with
    | .error e => .error e
    | .ok func_name =>
      let fields_res : Except AppError (Json × Json × Option String) :=
        match fetch_default_key key store with
        | some (val, schema0, f_name) =>
            .ok (req.value.getD val,
                (match req.schema with
                 | some o => Json.obj o
                 | none => schema0),
                if req.function_name == some Json.null then none
                else func_name.or f_name)
        | none =>
            match req.value, req.schema with
            | some val, some schema0 => .ok (val, Json.obj schema0, func_name)
            | _, _ => .error (.badArgument ("No record found for " ++ key))
      match fields_res with
      | .error e => .error e
      | .ok (value, schema, function_name) =>
        finish_create validateRecord store
          ⟨key, value, schema, function_name, user_email⟩

/-- A stored context row as read by `get_key_usage_context_ids`: its
id and its override payload (a raw JSON value that is decoded to an
object on each use). -/
structure StoredContext where
  id : String
  override_ : Json

/-- `get_key_usage_context_ids` (handlers.rs lines 194-214): decode
every context's override into an object (error on failure) and collect
the ids of those whose object contains the key, in store order. -/
def get_key_usage_context_ids (key : String) :
    List StoredContext → Except AppError (List String)
  | [] => .ok []
  | c :: rest =>
      match c.override_ with
      | .obj fields =>
          (match get_key_usage_context_ids key rest with
           | .error e => .error e
           | .ok ids =>
               .ok (if (fields.find? (fun p => p.1 == key)).isSome
                    then c.id :: ids else ids))
      | _ => .error (.unexpected "failed to decode override")

/-- The default-config `delete` handler, handlers.rs lines 216-250:
look the key up (`?` propagates a db NotFound error), collect the
referencing context ids (errors mapped to `unexpected`), then either
reject with the id list or delete the row. -/
def deleteConfig (store : List DefaultConfig) (ctxs : List StoredContext)
    (key : String) : Except AppError (List DefaultConfig) :=
  match fetch_default_key key store with
  | none => .error (.dbError "record not found")
  | some _ =>
    match get_key_usage_context_ids key ctxs with
    | .error _ => .error (.unexpected "Something went wrong")
    | .ok context_ids =>
      if context_ids.isEmpty then
        if (store.filter (fun d => d.key == key)).length = 0 then
          .error (.notFound ("default config key `" ++ key ++
            "` doesn't exists"))
        else .ok (store.filter (fun d => !(d.key == key)))
      else
        .error (.badArgument ("Given key already in use in contexts: " ++
          String.intercalate "," context_ids))

/-- Whether a stored context's override object contains the key (false
when the override is not an object). -/
def referencesKey (key : String) (c : StoredContext) : Bool :=
  match c.override_ with
  | .obj fields => (fields.find? (fun p => p.1 == key)).isSome
  | _ => false

/-- The ids of the contexts whose override object contains the key
(the pure content of `get_key_usage_context_ids` when every override
decodes). -/
def referencingIds (key : String) (ctxs : List StoredContext) :
    List String :=
  (ctxs.filter (referencesKey key)).map StoredContext.id

theorem fetch_cons (d : DefaultConfig) (t : List DefaultConfig)
    (key : String) :
    fetch_default_key key (d :: t) =
      if d.key == key then some (d.value, d.schema, d.function_name)
      else fetch_default_key key t := by
  simp only [fetch_default_key, List.find?]
  cases h : (d.key == key) <;> simp [h]

theorem fetch_map_self (store : List DefaultConfig) (d : DefaultConfig)
    (hany : store.any (fun x => x.key == d.key) = true) :
    fetch_default_key d.key
      (store.map (fun x => if x.key == d.key then d else x)) =
      some (d.value, d.schema, d.function_name) := by
  induction store with
  | nil => simp at hany
  | cons x t ih =>
      rw [List.map_cons]
      by_cases hx : (x.key == d.key) = true
      · rw [if_pos hx, fetch_cons, if_pos (by simp)]
      · rw [if_neg hx, fetch_cons, if_neg hx]
        refine ih ?_
        have := List.any_cons (l := t) (a := x)
          (f := fun x => x.key == d.key) ▸ hany
        rcases Bool.or_eq_true_iff.mp this with hc | hc
        · exact absurd hc hx
        · exact hc

theorem fetch_none_of_not_any (store : List DefaultConfig) (key : String)
    (hany : ¬ store.any (fun x => x.key == key) = true) :
    fetch_default_key key store = none := by
  induction store with
  | nil => rfl
  | cons x t ih =>
      rw [fetch_cons]
      by_cases hx : (x.key == key) = true
      · exact absurd (by rw [List.any_cons, hx, Bool.true_or]) hany
      · rw [if_neg hx]
        refine ih ?_
        intro hc
        exact hany (by rw [List.any_cons, hc, Bool.or_true])

theorem fetch_append_self (store : List DefaultConfig) (d : DefaultConfig)
    (h : fetch_default_key d.key store = none) :
    fetch_default_key d.key (store ++ [d]) =
      some (d.value, d.schema, d.function_name) := by
  induction store with
  | nil => rw [List.nil_append, fetch_cons, if_pos (by simp)]
  | cons x t ih =>
      rw [fetch_cons] at h
      by_cases hx : (x.key == d.key) = true
      · rw [if_pos hx] at h
        exact absurd h (by simp)
      · rw [if_neg hx] at h
        rw [List.cons_append, fetch_cons, if_neg hx]
        exact ih h

theorem fetch_upsert_self (store : List DefaultConfig)
    (d : DefaultConfig) :
    fetch_default_key d.key (upsertConfig store d) =
      some (d.value, d.schema, d.function_name) := by
  simp only [upsertConfig]
  by_cases hany : store.any (fun x => x.key == d.key) = true
  · rw [if_pos hany]
    exact fetch_map_self store d hany
  · rw [if_neg hany]
    exact fetch_append_self store d (fetch_none_of_not_any store d.key hany)

/-- C6: default-config upsert field inheritance.  If the key already
exists, every request field left absent inherits the stored record's
value for that field in the written record; if the key is new and
`value` or `schema` is missing, the handler fails with `BadArgument`
(so nothing is written). -/
theorem finish_create_ok {validateRecord : DefaultConfig → Except AppError Unit}
    {store : List DefaultConfig} {dc : DefaultConfig}
    {store' : List DefaultConfig}
    (h : finish_create validateRecord store dc = .ok store') :
    store' = upsertConfig store dc := by
  rw [finish_create] at h
  rcases hv : validateRecord dc with e | u
  · rw [hv] at h
    exact absurd h (by simp)
  · rw [hv] at h
    exact (Except.ok.inj h).symm

theorem fetch_upsert_mk (store : List DefaultConfig) (k : String)
    (v s : Json) (f : Option String) (u : String) :
    fetch_default_key k (upsertConfig store ⟨k, v, s, f, u⟩) =
      some (v, s, f) :=
  fetch_upsert_self store ⟨k, v, s, f, u⟩

/-- C6: default-config upsert field inheritance.  If the key already
exists, every request field left absent inherits the stored record's
value for that field in the written record; if the key is new and
`value` or `schema` is missing, the handler fails with `BadArgument`
(so nothing is written). -/
theorem create_spec (validateRecord : DefaultConfig → Except AppError Unit)
    (store : List DefaultConfig) (user_email key : String)
    (req : CreateReq) (v s : Json) (f : Option String)
    (store' : List DefaultConfig) :
    (fetch_default_key key store = some (v, s, f) →
      create validateRecord store user_email key req = .ok store' →
      ∃ v' s' f', fetch_default_key key store' = some (v', s', f') ∧
        (req.value = none → v' = v) ∧
        (req.schema = none → s' = s) ∧
        (req.function_name = none → f' = f)) ∧
    (fetch_default_key key store = none →
      (req.value = none ∨ req.schema = none) →
      ∃ msg, create validateRecord store user_email key req =
        .error (.badArgument msg)) := by
  constructor
  · intro hfetch hok
    by_cases hall : (req.value.isNone && req.schema.isNone &&
        req.function_name.isNone) = true
    · rw [create, if_pos hall] at hok
      exact absurd hok (by simp)
    · rw [create, if_neg hall] at hok
      rcases hfn : req.function_name with _ | jf
      · simp only [hfn, parse_function_name, hfetch] at hok
        have hst := finish_create_ok hok
        subst hst
        refine ⟨_, _, _, fetch_upsert_mk store key _ _ _ _, ?_, ?_, ?_⟩
        · intro hv; rw [hv]; rfl
        · intro hs; rw [hs]
        · intro _; rfl
      · cases jf with
        | null =>
            simp only [hfn, parse_function_name, hfetch] at hok
            have hst := finish_create_ok hok
            subst hst
            refine ⟨_, _, _, fetch_upsert_mk store key _ _ _ _, ?_, ?_, ?_⟩
            · intro hv; rw [hv]; rfl
            · intro hs; rw [hs]
            · intro hcontra
              exact absurd hcontra (by simp)
        | str s₀ =>
            simp only [hfn, parse_function_name, hfetch] at hok
            have hst := finish_create_ok hok
            subst hst
            refine ⟨_, _, _, fetch_upsert_mk store key _ _ _ _, ?_, ?_, ?_⟩
            · intro hv; rw [hv]; rfl
            · intro hs; rw [hs]
            · intro hcontra
              exact absurd hcontra (by simp)
        | bool b =>
            simp only [hfn, parse_function_name] at hok
            exact absurd hok (by simp)
        | num n =>
            simp only [hfn, parse_function_name] at hok
            exact absurd hok (by simp)
        | arr xs =>
            simp only [hfn, parse_function_name] at hok
            exact absurd hok (by simp)
        | obj fs =>
            simp only [hfn, parse_function_name] at hok
            exact absurd hok (by simp)
  · intro hfetch hmiss
    by_cases hall : (req.value.isNone && req.schema.isNone &&
        req.function_name.isNone) = true
    · exact ⟨"Please provide data in the request body.",
        by rw [create, if_pos hall]⟩
    · rcases hfn : req.function_name with _ | jf
      · refine ⟨"No record found for " ++ key, ?_⟩
        rw [create, if_neg hall]
        simp only [hfn, parse_function_name, hfetch]
        rcases hmiss with hm | hm
        · rw [hm]
        · rw [hm]
          cases req.value <;> rfl
      · cases jf with
        | str s₀ =>
            refine ⟨"No record found for " ++ key, ?_⟩
            rw [create, if_neg hall]
            simp only [hfn, parse_function_name, hfetch]
            rcases hmiss with hm | hm
            · rw [hm]
            · rw [hm]
              cases req.value <;> rfl
        | null =>
            refine ⟨"No record found for " ++ key, ?_⟩
            rw [create, if_neg hall]
            simp only [hfn, parse_function_name, hfetch]
            rcases hmiss with hm | hm
            · rw [hm]
            · rw [hm]
              cases req.value <;> rfl
        | bool b =>
            refine ⟨"Expected a string or null as the function name.", ?_⟩
            rw [create, if_neg hall]
            simp only [hfn, parse_function_name]
        | num n =>
            refine ⟨"Expected a string or null as the function name.", ?_⟩
            rw [create, if_neg hall]
            simp only [hfn, parse_function_name]
        | arr xs =>
            refine ⟨"Expected a string or null as the function name.", ?_⟩
            rw [create, if_neg hall]
            simp only [hfn, parse_function_name]
        | obj fs =>
            refine ⟨"Expected a string or null as the function name.", ?_⟩
            rw [create, if_neg hall]
            simp only [hfn, parse_function_name]

/-- C6 witness: on an existing key `k`, a request carrying only a new
value inherits the stored schema and function name; on a fresh key
`k2`, a request without a schema is rejected with `BadArgument`. -/
theorem create_spec_witness :
    (∃ v' s' f',
      fetch_default_key "k"
        [⟨"k", Json.num 2, Json.obj [], some "fn", "admin"⟩] =
        some (v', s', f') ∧
      ((some (Json.num 2) : Option Json) = none → v' = Json.num 1) ∧
      ((none : Option (List (String × Json))) = none → s' = Json.obj []) ∧
      ((none : Option Json) = none → f' = some "fn")) ∧
    (∃ msg, create (fun _ => Except.ok ()) [] "admin" "k2"
        ⟨some (Json.num 1), none, none⟩ = .error (.badArgument msg)) := by
  constructor
  · exact (create_spec (fun _ => Except.ok ())
      [⟨"k", Json.num 1, Json.obj [], some "fn", "admin"⟩] "admin" "k"
      ⟨some (Json.num 2), none, none⟩ (Json.num 1) (Json.obj [])
      (some "fn") [⟨"k", Json.num 2, Json.obj [], some "fn", "admin"⟩]).1
      rfl rfl
  · exact (create_spec (fun _ => Except.ok ()) [] "admin" "k2"
      ⟨some (Json.num 1), none, none⟩ Json.null Json.null none []).2
      rfl (Or.inr rfl)

theorem referencingIds_cons (key : String) (c : StoredContext)
    (rest : List StoredContext) :
    referencingIds key (c :: rest) =
      if referencesKey key c
      then c.id :: referencingIds key rest
      else referencingIds key rest := by
  simp only [referencingIds, List.filter]
  cases h : referencesKey key c <;> simp [h]

theorem get_ids_eq (key : String) (ctxs : List StoredContext)
    (hobj : ∀ c ∈ ctxs, ∃ fields, c.override_ = Json.obj fields) :
    get_key_usage_context_ids key ctxs = .ok (referencingIds key ctxs) := by
  induction ctxs with
  | nil => rfl
  | cons c rest ih =>
      obtain ⟨fields, hf⟩ := hobj c (List.mem_cons_self c rest)
      have ih' := ih (fun x hx => hobj x (List.mem_cons_of_mem c hx))
      rw [referencingIds_cons]
      have hrc : referencesKey key c =
          (fields.find? (fun p => p.1 == key)).isSome := by
        simp [referencesKey, hf]
      simp only [get_key_usage_context_ids, hf, ih', hrc]

/-- C7 (amended): for a key present in the default-config store, and
with every stored override decodable as a JSON object, delete fails
with `BadArgument` listing exactly the ids of the contexts whose
override object contains the key whenever at least one exists, and
otherwise removes the key's record leaving the rest unchanged. -/
theorem delete_spec (store : List DefaultConfig)
    (ctxs : List StoredContext) (key : String) (v s : Json)
    (f : Option String)
    (hk : fetch_default_key key store = some (v, s, f))
    (hobj : ∀ c ∈ ctxs, ∃ fields, c.override_ = Json.obj fields) :
    (referencingIds key ctxs ≠ [] →
      deleteConfig store ctxs key = .error (.badArgument
        ("Given key already in use in contexts: " ++
          String.intercalate "," (referencingIds key ctxs)))) ∧
    (referencingIds key ctxs = [] →
      deleteConfig store ctxs key =
        .ok (store.filter (fun d => !(d.key == key)))) := by
  have hids := get_ids_eq key ctxs hobj
  constructor
  · intro hne
    simp only [deleteConfig, hk, hids]
    rw [if_neg (by
      intro hc
      exact hne (List.isEmpty_iff.mp hc))]
  · intro hemp
    simp only [deleteConfig, hk, hids, hemp]
    rw [if_pos (by rfl)]
    have hlen : (store.filter (fun d => d.key == key)).length ≠ 0 := by
      rcases Option.map_eq_some'.mp hk with ⟨d₀, hfind, -⟩
      have hmem : d₀ ∈ store := List.mem_of_find?_eq_some hfind
      have hpred : (d₀.key == key) = true := by
        simpa using List.find?_some hfind
      have : d₀ ∈ store.filter (fun d => d.key == key) :=
        List.mem_filter.mpr ⟨hmem, hpred⟩
      have := List.length_pos.mpr (List.ne_nil_of_mem this)
      omega
    rw [if_neg hlen]

/-- C7 counterexample: for a key absent from the default-config store
but referenced by a stored context, delete fails with the db-NotFound
error from `fetch_default_key`, not with `BadArgument` listing the
referencing context ids as the claim demands for every key. -/
theorem deleteConfig_claim_counterexample :
    deleteConfig [] [⟨"c1", Json.obj [("k", Json.null)]⟩] "k" =
      .error (.dbError "record not found") ∧
    deleteConfig [] [⟨"c1", Json.obj [("k", Json.null)]⟩] "k" ≠
      .error (.badArgument
        ("Given key already in use in contexts: " ++ "c1")) := by
  constructor
  · rfl
  · intro h
    rw [show deleteConfig [] [⟨"c1", Json.obj [("k", Json.null)]⟩] "k" =
      .error (.dbError "record not found") from rfl] at h
    exact absurd h (by simp)

/-- C7 witness: with key `k` stored, a referencing context `c1` makes
delete fail listing `c1`; with only a non-referencing context, delete
removes the record. -/
theorem delete_spec_witness :
    deleteConfig [⟨"k", Json.num 1, Json.obj [], none, "admin"⟩]
      [⟨"c1", Json.obj [("k", Json.null)]⟩,
       ⟨"c2", Json.obj [("other", Json.null)]⟩] "k" =
      .error (.badArgument
        ("Given key already in use in contexts: " ++
          String.intercalate ","
            (referencingIds "k"
              [⟨"c1", Json.obj [("k", Json.null)]⟩,
               ⟨"c2", Json.obj [("other", Json.null)]⟩]))) ∧
    deleteConfig [⟨"k", Json.num 1, Json.obj [], none, "admin"⟩]
      [⟨"c2", Json.obj [("other", Json.null)]⟩] "k" =
      .ok (([⟨"k", Json.num 1, Json.obj [], none, "admin"⟩] :
        List DefaultConfig).filter (fun d => !(d.key == "k"))) := by
  constructor
  · exact (delete_spec [⟨"k", Json.num 1, Json.obj [], none, "admin"⟩]
      [⟨"c1", Json.obj [("k", Json.null)]⟩,
       ⟨"c2", Json.obj [("other", Json.null)]⟩] "k"
      (Json.num 1) (Json.obj []) none rfl
      (by
        intro c hc
        rcases List.mem_cons.mp hc with rfl | hc
        · exact ⟨[("k", Json.null)], rfl⟩
        rcases List.mem_cons.mp hc with rfl | hc
        · exact ⟨[("other", Json.null)], rfl⟩
        exact absurd hc (List.not_mem_nil c))).1 (by decide)
  · exact (delete_spec [⟨"k", Json.num 1, Json.obj [], none, "admin"⟩]
      [⟨"c2", Json.obj [("other", Json.null)]⟩] "k"
      (Json.num 1) (Json.obj []) none rfl
      (by
        intro c hc
        rcases List.mem_cons.mp hc with rfl | hc
        · exact ⟨[("other", Json.null)], rfl⟩
        exact absurd hc (List.not_mem_nil c))).2 rfl

/-- The loop of `validate_override_keys` (helpers.rs lines 41-48):
walk the keys, tracking the set of keys seen so far; a
`HashSet::insert` returning false (the key was already present)
aborts with `BadArgument`. -/
def validate_override_keys_loop (key_set : List String) :
    List String → Except AppError Unit
  | [] => .ok ()
  | key :: rest =>
      if key_set.contains key then
        .error (.badArgument
          "override_keys are not unique. Remove duplicate entries in override_keys")
      else validate_override_keys_loop (key :: key_set) rest

/-- `validate_override_keys` (helpers.rs lines 40-51): start from an
empty seen-set. -/
def validate_override_keys (override_keys : List String) :
    Except AppError Unit :=
  validate_override_keys_loop [] override_keys

theorem validate_override_keys_loop_spec (l : List String) :
    ∀ seen : List String,
      validate_override_keys_loop seen l =
        if l.Nodup ∧ ∀ k ∈ l, k ∉ seen then .ok ()
        else .error (.badArgument
          "override_keys are not unique. Remove duplicate entries in override_keys") := by
  induction l with
  | nil =>
      intro seen
      rw [if_pos ⟨List.nodup_nil, by intro k hk; cases hk⟩]
      rfl
  | cons key rest ih =>
      intro seen
      rw [validate_override_keys_loop]
      by_cases hc : seen.contains key = true
      · rw [if_pos hc, if_neg ?_]
        rintro ⟨-, hall⟩
        exact hall key (List.mem_cons_self key rest) (List.elem_iff.mp hc)
      · rw [if_neg hc, ih (key :: seen)]
        have hkey : key ∉ seen := fun hm => hc (List.elem_iff.mpr hm)
        by_cases hcond : (key :: rest).Nodup ∧ ∀ k ∈ key :: rest, k ∉ seen
        · rw [if_pos ?_, if_pos hcond]
          obtain ⟨hnd, hall⟩ := hcond
          rw [List.nodup_cons] at hnd
          refine ⟨hnd.2, ?_⟩
          intro k hk
          rw [List.mem_cons]
          rintro (rfl | hks)
          · exact hnd.1 hk
          · exact hall k (List.mem_cons_of_mem key hk) hks
        · rw [if_neg ?_, if_neg hcond]
          rintro ⟨hnd, hall⟩
          refine hcond ⟨List.nodup_cons.mpr ⟨?_, hnd⟩, ?_⟩
          · intro hkr
            exact hall key hkr (List.mem_cons_self key seen)
          · intro k hk
            rcases List.mem_cons.mp hk with rfl | hkr
            · exact hkey
            · intro hks
              exact hall k hkr (List.mem_cons_of_mem key hks)

/-- C8 (amended): `validate_override_keys` rejects with `BadArgument`
exactly the lists containing a duplicate key; every duplicate-free
list — including the empty list — is accepted. -/
theorem validate_override_keys_spec (override_keys : List String) :
    validate_override_keys override_keys =
      if override_keys.Nodup then .ok ()
      else .error (.badArgument
        "override_keys are not unique. Remove duplicate entries in override_keys") := by
  rw [validate_override_keys, validate_override_keys_loop_spec]
  by_cases hnd : override_keys.Nodup
  · rw [if_pos ⟨hnd, by intro k _ hk; cases hk⟩, if_pos hnd]
  · rw [if_neg ?_, if_neg hnd]
    rintro ⟨hc, -⟩
    exact hnd hc

/-- C8 counterexample: the empty override-key list is accepted, while
the claim demands it be rejected. -/
theorem validate_override_keys_claim_counterexample :
    validate_override_keys [] = .ok () ∧
    validate_override_keys [] ≠ .error (.badArgument
      "override_keys are not unique. Remove duplicate entries in override_keys") := by
  refine ⟨rfl, ?_⟩
  intro h
  rw [show validate_override_keys [] = .ok () from rfl] at h
  exact absurd h (by simp)

end Superposition
